import Mathlib

/-!
Verification of the Schapiro experiment harness
(`lake/schapiro_experiments.py`): the study-loop probe schedule, the
per-probe correlation/contrast accumulation, the early/late striding of
the accumulators, and the final aggregation.

Conventions of the shallow embedding:
* floating-point tensors are modelled over `ℝ`; 2-D tensors are lists of
  rows (`List (List ℝ)`) exactly as the nested list comprehensions build
  them before `torch.tensor`;
* `torch.cat(acc, new)` along dimension 0 is list append;
* Python `range` loops become `List.range`, Python slices `l[s:e:2]`
  become `pySlice2`.
-/

namespace Schapiro

/-- A recall probe issued inside the study loop (line 318-321 of
`schapiro_experiments.py`): the step index at which it fires and whether
it runs under `torch.no_grad()` (it always does — the probe body is
wrapped in `with torch.no_grad():`). -/
structure Probe where
  step : Int
  noGrad : Bool
  deriving DecidableEq

/-- The guard of line 318:
`step == config['early_response_step']-1 or step == config['late_response_steps']-1`.
The configured values are JSON numbers, so the early step is an `Int`
(Python subtraction does not truncate at zero). -/
def probeCond (early : Int) (late : Nat) (step : Nat) : Bool :=
  ((step : Int) == early - 1) || ((step : Int) == (late : Int) - 1)

/-- The probes issued by one trial's study loop
(`for step in range(config['late_response_steps']):` with the guard of
line 318); each fired probe runs inside `with torch.no_grad():`. -/
def studyProbes (early : Int) (late : Nat) : List Probe :=
  (List.range late).filterMap fun step =>
    if probeCond early late step then some { step := (step : Int), noGrad := true } else none

theorem filterMap_guard {α β : Type} (p : α → Bool) (g : α → β) (l : List α) :
    l.filterMap (fun x => if p x then some (g x) else none) = (l.filter p).map g := by
  induction l with
  | nil => rfl
  | cons a t ih =>
    by_cases h : p a <;> simp [List.filterMap_cons, List.filter_cons, h, ih]

theorem filter_range_eq_single (p : Nat → Bool) :
    ∀ (n a : Nat), a < n → (∀ s, s < n → (p s = true ↔ s = a)) →
      (List.range n).filter p = [a] := by
  intro n
  induction n with
  | zero => intro a ha; omega
  | succ m ih =>
    intro a ha hp
    rw [List.range_succ, List.filter_append]
    rcases Nat.lt_succ_iff_lt_or_eq.mp ha with h | h
    · have h1 : (List.range m).filter p = [a] :=
        ih a h (fun s hs => hp s (Nat.lt_succ_of_lt hs))
      have h2 : ¬ p m = true := by
        intro hm
        have := (hp m (Nat.lt_succ_self m)).mp hm
        omega
      simp [h1, List.filter_cons, h2]
    · subst h
      have h1 : (List.range a).filter p = [] := by
        rw [List.filter_eq_nil_iff]
        intro s hs hpm
        have hs' : s < a := List.mem_range.mp hs
        have := (hp s (Nat.lt_succ_of_lt hs')).mp hpm
        omega
      have h2 : p a = true := (hp a (Nat.lt_succ_self a)).mpr rfl
      simp [h1, List.filter_cons, h2]

theorem filter_range_eq_pair (p : Nat → Bool) :
    ∀ (n a b : Nat), a < b → b < n → (∀ s, s < n → (p s = true ↔ (s = a ∨ s = b))) →
      (List.range n).filter p = [a, b] := by
  intro n
  induction n with
  | zero => intro a b hab hb; omega
  | succ m ih =>
    intro a b hab hb hp
    rw [List.range_succ, List.filter_append]
    rcases Nat.lt_succ_iff_lt_or_eq.mp hb with h | h
    · have h1 : (List.range m).filter p = [a, b] :=
        ih a b hab h (fun s hs => hp s (Nat.lt_succ_of_lt hs))
      have h2 : ¬ p m = true := by
        intro hm
        rcases (hp m (Nat.lt_succ_self m)).mp hm with h' | h' <;> omega
      simp [h1, List.filter_cons, h2]
    · subst h
      have h1 : (List.range b).filter p = [a] := by
        apply filter_range_eq_single p b a hab
        intro s hs
        constructor
        · intro hps
          rcases (hp s (Nat.lt_succ_of_lt hs)).mp hps with h' | h' <;> omega
        · intro h'
          exact (hp s (Nat.lt_succ_of_lt hs)).mpr (Or.inl h')
      have h2 : p b = true := (hp b (Nat.lt_succ_self b)).mpr (Or.inr rfl)
      simp [h1, List.filter_cons, h2]

/-- With `1 ≤ early_response_step < late_response_steps`, the study loop
fires exactly two probes, at steps `early-1` and `late-1`, in that
order, both under `no_grad`. -/
theorem studyProbes_eq (early : Int) (late : Nat) (h1 : 1 ≤ early) (h2 : early < (late : Int)) :
    studyProbes early late =
      [{ step := early - 1, noGrad := true }, { step := (late : Int) - 1, noGrad := true }] := by
  have hlate2 : 2 ≤ late := by omega
  set a : Nat := (early - 1).toNat with ha
  set b : Nat := late - 1 with hb
  have haInt : (a : Int) = early - 1 := by omega
  have hbInt : (b : Int) = (late : Int) - 1 := by omega
  have hab : a < b := by omega
  have hbn : b < late := by omega
  have hfilter : (List.range late).filter (probeCond early late) = [a, b] := by
    apply filter_range_eq_pair _ late a b hab hbn
    intro s hs
    simp only [probeCond, Bool.or_eq_true, beq_iff_eq]
    omega
  have hfm := filterMap_guard (probeCond early late)
    (fun step : Nat => ({ step := (step : Int), noGrad := true } : Probe)) (List.range late)
  unfold studyProbes
  rw [hfm, hfilter]
  simp [haInt, hbInt]

/-- C2 counterexample: `early_response_step = 0` and
`late_response_steps = 2` satisfy the claim's precondition
(`0 < 2`), yet the study loop fires only one probe (the guard
`step == 0 - 1` never matches a loop index), not two. -/
theorem C2_counterexample :
    ((0 : Int) < ((2 : Nat) : Int)) ∧ (studyProbes 0 2).length ≠ 2 := by
  constructor
  · decide
  · decide

/-- C2 (amended): under the precondition that the configured early
response step is at least 1 AND strictly less than the configured number
of late response steps, the study loop issues exactly two recall probes:
one at step `early_response_step − 1` (the early probe) and one at the
final step `late_response_steps − 1` (the late probe), in that order, at
two distinct steps, each performed inside `torch.no_grad()` (no
gradient/weight update). -/
theorem C2_probe_schedule (early : Int) (late : Nat)
    (h1 : 1 ≤ early) (h2 : early < (late : Int)) :
    studyProbes early late =
      [{ step := early - 1, noGrad := true }, { step := (late : Int) - 1, noGrad := true }] ∧
    early - 1 ≠ (late : Int) - 1 := by
  exact ⟨studyProbes_eq early late h1 h2, by omega⟩

/-- Witness for `C2_probe_schedule` at `early = 1`, `late = 2`. -/
theorem C2_probe_schedule_witness :
    ((1 : Int) ≤ 1 ∧ (1 : Int) < ((2 : Nat) : Int)) ∧
      (studyProbes 1 2 =
        [{ step := 0, noGrad := true }, { step := 1, noGrad := true }] ∧
       (0 : Int) ≠ 1) := by
  refine ⟨⟨le_refl 1, by decide⟩, ?_⟩
  have h := C2_probe_schedule 1 2 (le_refl 1) (by decide)
  constructor
  · rw [h.1]; norm_num
  · decide

/-- Common helper: the set of step indices that fire the probe guard,
in loop order. -/
theorem probe_filter_eq (early : Int) (late : Nat)
    (h1 : 1 ≤ early) (h2 : early < (late : Int)) :
    (List.range late).filter (probeCond early late) = [(early - 1).toNat, late - 1] := by
  apply filter_range_eq_pair _ late ((early - 1).toNat) (late - 1) (by omega) (by omega)
  intro s hs
  simp only [probeCond, Bool.or_eq_true, beq_iff_eq]
  omega

/-- Entry access of a 2-D tensor modelled as a list of rows (out of
range reads the default 0, which in-range statements never hit). -/
def matAt (M : List (List ℝ)) (i j : Nat) : ℝ := (M.getD i []).getD j 0

/-- Every other element starting at the head: the core of a Python
step-2 slice. -/
def stride2 {α : Type} : List α → List α
  | [] => []
  | [a] => [a]
  | a :: _ :: rest => a :: stride2 rest

/-- Python slice `l[start:stop:2]` (positive step 2): clamp at `stop`,
drop the first `start`, then take every other element. -/
def pySlice2 {α : Type} (l : List α) (start stop : Nat) : List α :=
  stride2 ((l.take stop).drop start)

/-- `interleave [(e1,l1), (e2,l2), ...] = [e1, l1, e2, l2, ...]`. -/
def interleave {α : Type} : List (α × α) → List α
  | [] => []
  | (e, l) :: rest => e :: l :: interleave rest

/-- The entries one trial's study loop appends to one component's
accumulator: the loop `for step in range(late_response_steps)` appends
`f step` (the matrix, resp. contrast vector, computed from that probe's
recall outputs) exactly when the guard of line 318 fires. -/
def trialAppends {α : Type} (early : Int) (late : Nat) (f : Int → α) : List α :=
  (List.range late).filterMap fun step =>
    if probeCond early late step then some (f (step : Int)) else none

/-- A whole run of one component's accumulator: `torch.cat` along
dimension 0 is append; `trials` lists every trial of every epoch of
every seed in execution order (the accumulators of lines 83-90 are
created once, before the seed loop). -/
def accumRun {α : Type} (early : Int) (late : Nat) (init : List α)
    (trials : List (Int → α)) : List α :=
  trials.foldl (fun acc f => acc ++ trialAppends early late f) init

/-- `torch.zeros((n, n))`: the all-zeros placeholder matrix. -/
def zerosMat (n : Nat) : List (List ℝ) := List.replicate n (List.replicate n 0)

/-- The matrix accumulator `pearson_r_tensor[component]`; its index 0
holds the placeholder `torch.zeros((characters, characters))[None, :, :]`
(lines 88-90). -/
def pearsonRTensorRun (n : Nat) (early : Int) (late : Nat)
    (trials : List (Int → List (List ℝ))) : List (List (List ℝ)) :=
  accumRun early late [zerosMat n] trials

/-- The contrast accumulator `pearson_r_test[component]`; its index 0
holds the placeholder `torch.zeros((1, w))` with `w = 2` (or 4 for the
community variant) (lines 83-86). -/
def pearsonRTestRun (w : Nat) (early : Int) (late : Nat)
    (trials : List (Int → List ℝ)) : List (List ℝ) :=
  accumRun early late [List.replicate w 0] trials

theorem trialAppends_eq {α : Type} (early : Int) (late : Nat)
    (h1 : 1 ≤ early) (h2 : early < (late : Int)) (f : Int → α) :
    trialAppends early late f = [f (early - 1), f ((late : Int) - 1)] := by
  have hfm := filterMap_guard (probeCond early late)
    (fun step : Nat => f (step : Int)) (List.range late)
  unfold trialAppends
  rw [hfm, probe_filter_eq early late h1 h2]
  have haInt : (((early - 1).toNat : Nat) : Int) = early - 1 := by omega
  have hbInt : ((late - 1 : Nat) : Int) = (late : Int) - 1 := by omega
  simp only [List.map_cons, List.map_nil, haInt, hbInt]

theorem accumRun_eq {α : Type} (early : Int) (late : Nat)
    (h1 : 1 ≤ early) (h2 : early < (late : Int)) (trials : List (Int → α)) :
    ∀ init : List α,
      accumRun early late init trials =
        init ++ interleave (trials.map fun f => (f (early - 1), f ((late : Int) - 1))) := by
  induction trials with
  | nil => intro init; simp [accumRun, interleave]
  | cons f ts ih =>
    intro init
    have step : accumRun early late init (f :: ts) =
        accumRun early late (init ++ trialAppends early late f) ts := rfl
    rw [step, ih, trialAppends_eq early late h1 h2 f]
    simp [interleave, List.append_assoc]

theorem stride2_interleave {α : Type} (ps : List (α × α)) :
    stride2 (interleave ps) = ps.map Prod.fst := by
  induction ps with
  | nil => rfl
  | cons p rest ih =>
    obtain ⟨e, l⟩ := p
    simp [interleave, stride2, ih]

theorem stride2_interleave_drop {α : Type} (ps : List (α × α)) :
    stride2 ((interleave ps).drop 1) = ps.map Prod.snd := by
  induction ps with
  | nil => rfl
  | cons p rest ih =>
    obtain ⟨e, l⟩ := p
    cases rest with
    | nil => rfl
    | cons q rest' =>
      obtain ⟨e', l'⟩ := q
      simp only [interleave, List.drop_succ_cons, List.drop_zero] at ih ⊢
      rw [stride2, ih]
      simp

theorem interleave_length {α : Type} (ps : List (α × α)) :
    (interleave ps).length = 2 * ps.length := by
  induction ps with
  | nil => rfl
  | cons p rest ih =>
    obtain ⟨e, l⟩ := p
    simp [interleave, ih]
    omega

/-- The early-striding slice `acc[1:len(acc):2]` (lines 466, 471)
recovers exactly the per-trial early-probe entries. -/
theorem accumRun_early_slice {α : Type} (early : Int) (late : Nat)
    (h1 : 1 ≤ early) (h2 : early < (late : Int)) (z : α) (trials : List (Int → α)) :
    pySlice2 (accumRun early late [z] trials) 1 (accumRun early late [z] trials).length =
      trials.map (fun f => f (early - 1)) := by
  rw [accumRun_eq early late h1 h2 trials [z]]
  unfold pySlice2
  rw [List.take_length]
  simp only [List.singleton_append, List.drop_succ_cons, List.drop_zero]
  rw [stride2_interleave]
  simp [List.map_map, Function.comp]

/-- The late-striding slice `acc[2:len(acc)+1:2]` (lines 467, 472)
recovers exactly the per-trial late-probe entries. -/
theorem accumRun_late_slice {α : Type} (early : Int) (late : Nat)
    (h1 : 1 ≤ early) (h2 : early < (late : Int)) (z : α) (trials : List (Int → α)) :
    pySlice2 (accumRun early late [z] trials) 2 ((accumRun early late [z] trials).length + 1) =
      trials.map (fun f => f ((late : Int) - 1)) := by
  rw [accumRun_eq early late h1 h2 trials [z]]
  unfold pySlice2
  rw [List.take_of_length_le (Nat.le_succ _)]
  simp only [List.singleton_append, List.drop_succ_cons, List.drop_zero]
  rw [stride2_interleave_drop]
  simp [List.map_map, Function.comp_def]

theorem accumRun_drop_one {α : Type} (early : Int) (late : Nat)
    (h1 : 1 ≤ early) (h2 : early < (late : Int)) (z : α) (trials : List (Int → α)) :
    (accumRun early late [z] trials).drop 1 =
      interleave (trials.map fun f => (f (early - 1), f ((late : Int) - 1))) := by
  rw [accumRun_eq early late h1 h2 trials [z]]
  simp

theorem map_fst_append_map_snd_perm {α : Type} (ps : List (α × α)) :
    (ps.map Prod.fst ++ ps.map Prod.snd).Perm (interleave ps) := by
  induction ps with
  | nil => simp [interleave]
  | cons p rest ih =>
    obtain ⟨e, l⟩ := p
    simp only [List.map_cons, interleave, List.cons_append]
    refine List.Perm.cons e ?_
    refine List.Perm.trans List.perm_middle ?_
    exact ih.cons l

/-- C1: over a run of `T` trials in total (across all seeds and epochs),
with a configuration making each trial fire exactly one early and one
late probe (`1 ≤ early_response_step < late_response_steps`), for every
tracked component: the early-striding slice of the matrix accumulator
`pearson_r_tensor[c]` and of the contrast accumulator
`pearson_r_test[c]` each have exactly `T` entries, the late-striding
slices each have exactly `T` entries, and together the two slices are a
permutation of everything after the placeholder — every appended entry
is tagged early or late, never both. -/
theorem C1_accumulator_counts (n w : Nat) (early : Int) (late : Nat)
    (h1 : 1 ≤ early) (h2 : early < (late : Int))
    (Mtrials : List (Int → List (List ℝ))) (Ctrials : List (Int → List ℝ)) :
    (pySlice2 (pearsonRTensorRun n early late Mtrials) 1
        (pearsonRTensorRun n early late Mtrials).length).length = Mtrials.length ∧
    (pySlice2 (pearsonRTensorRun n early late Mtrials) 2
        ((pearsonRTensorRun n early late Mtrials).length + 1)).length = Mtrials.length ∧
    (pySlice2 (pearsonRTestRun w early late Ctrials) 1
        (pearsonRTestRun w early late Ctrials).length).length = Ctrials.length ∧
    (pySlice2 (pearsonRTestRun w early late Ctrials) 2
        ((pearsonRTestRun w early late Ctrials).length + 1)).length = Ctrials.length ∧
    (pySlice2 (pearsonRTensorRun n early late Mtrials) 1
        (pearsonRTensorRun n early late Mtrials).length ++
      pySlice2 (pearsonRTensorRun n early late Mtrials) 2
        ((pearsonRTensorRun n early late Mtrials).length + 1)).Perm
      ((pearsonRTensorRun n early late Mtrials).drop 1) ∧
    (pySlice2 (pearsonRTestRun w early late Ctrials) 1
        (pearsonRTestRun w early late Ctrials).length ++
      pySlice2 (pearsonRTestRun w early late Ctrials) 2
        ((pearsonRTestRun w early late Ctrials).length + 1)).Perm
      ((pearsonRTestRun w early late Ctrials).drop 1) := by
  unfold pearsonRTensorRun pearsonRTestRun
  rw [accumRun_early_slice early late h1 h2, accumRun_late_slice early late h1 h2,
    accumRun_early_slice early late h1 h2, accumRun_late_slice early late h1 h2,
    accumRun_drop_one early late h1 h2, accumRun_drop_one early late h1 h2]
  refine ⟨by simp, by simp, by simp, by simp, ?_, ?_⟩
  · have h := map_fst_append_map_snd_perm
      (Mtrials.map fun f => (f (early - 1), f ((late : Int) - 1)))
    simpa [List.map_map, Function.comp] using h
  · have h := map_fst_append_map_snd_perm
      (Ctrials.map fun f => (f (early - 1), f ((late : Int) - 1)))
    simpa [List.map_map, Function.comp] using h

/-- Witness for `C1_accumulator_counts`: one trial, `early = 1`,
`late = 2`, one component of each accumulator kind. -/
theorem C1_accumulator_counts_witness :
    ((1 : Int) ≤ 1 ∧ (1 : Int) < ((2 : Nat) : Int)) ∧
    ((pySlice2 (pearsonRTensorRun 1 1 2 [fun _ => zerosMat 1]) 1
        (pearsonRTensorRun 1 1 2 [fun _ => zerosMat 1]).length).length =
      [fun _ : Int => zerosMat 1].length ∧
    (pySlice2 (pearsonRTensorRun 1 1 2 [fun _ => zerosMat 1]) 2
        ((pearsonRTensorRun 1 1 2 [fun _ => zerosMat 1]).length + 1)).length =
      [fun _ : Int => zerosMat 1].length ∧
    (pySlice2 (pearsonRTestRun 2 1 2 [fun _ => [0, 0]]) 1
        (pearsonRTestRun 2 1 2 [fun _ => [0, 0]]).length).length =
      [fun _ : Int => [(0 : ℝ), 0]].length ∧
    (pySlice2 (pearsonRTestRun 2 1 2 [fun _ => [0, 0]]) 2
        ((pearsonRTestRun 2 1 2 [fun _ => [0, 0]]).length + 1)).length =
      [fun _ : Int => [(0 : ℝ), 0]].length ∧
    (pySlice2 (pearsonRTensorRun 1 1 2 [fun _ => zerosMat 1]) 1
        (pearsonRTensorRun 1 1 2 [fun _ => zerosMat 1]).length ++
      pySlice2 (pearsonRTensorRun 1 1 2 [fun _ => zerosMat 1]) 2
        ((pearsonRTensorRun 1 1 2 [fun _ => zerosMat 1]).length + 1)).Perm
      ((pearsonRTensorRun 1 1 2 [fun _ => zerosMat 1]).drop 1) ∧
    (pySlice2 (pearsonRTestRun 2 1 2 [fun _ => [0, 0]]) 1
        (pearsonRTestRun 2 1 2 [fun _ => [0, 0]]).length ++
      pySlice2 (pearsonRTestRun 2 1 2 [fun _ => [0, 0]]) 2
        ((pearsonRTestRun 2 1 2 [fun _ => [0, 0]]).length + 1)).Perm
      ((pearsonRTestRun 2 1 2 [fun _ => [0, 0]]).drop 1)) := by
  refine ⟨⟨le_refl 1, by decide⟩, ?_⟩
  exact C1_accumulator_counts 1 2 1 2 (le_refl 1) (by decide)
    [fun _ => zerosMat 1] [fun _ => [0, 0]]

/-- C10: the all-zeros placeholder entry placed at index 0 of each
component's matrix accumulator (lines 88-90) and contrast accumulator
(lines 83-86) sits at index 0 after the whole run, and both the
early-striding slice and the late-striding slice consist exactly of the
per-trial probe entries — the placeholder appears in neither, so it
never contributes to any aggregated matrix, aggregated contrast vector,
or exported table (which are computed from these slices alone). -/
theorem C10_placeholder_excluded (n w : Nat) (early : Int) (late : Nat)
    (h1 : 1 ≤ early) (h2 : early < (late : Int))
    (Mtrials : List (Int → List (List ℝ))) (Ctrials : List (Int → List ℝ)) :
    (pearsonRTensorRun n early late Mtrials).take 1 = [zerosMat n] ∧
    pySlice2 (pearsonRTensorRun n early late Mtrials) 1
        (pearsonRTensorRun n early late Mtrials).length =
      Mtrials.map (fun f => f (early - 1)) ∧
    pySlice2 (pearsonRTensorRun n early late Mtrials) 2
        ((pearsonRTensorRun n early late Mtrials).length + 1) =
      Mtrials.map (fun f => f ((late : Int) - 1)) ∧
    (pearsonRTestRun w early late Ctrials).take 1 = [List.replicate w 0] ∧
    pySlice2 (pearsonRTestRun w early late Ctrials) 1
        (pearsonRTestRun w early late Ctrials).length =
      Ctrials.map (fun f => f (early - 1)) ∧
    pySlice2 (pearsonRTestRun w early late Ctrials) 2
        ((pearsonRTestRun w early late Ctrials).length + 1) =
      Ctrials.map (fun f => f ((late : Int) - 1)) := by
  unfold pearsonRTensorRun pearsonRTestRun
  refine ⟨?_, accumRun_early_slice early late h1 h2 _ _,
    accumRun_late_slice early late h1 h2 _ _, ?_,
    accumRun_early_slice early late h1 h2 _ _,
    accumRun_late_slice early late h1 h2 _ _⟩
  · rw [accumRun_eq early late h1 h2]
    simp
  · rw [accumRun_eq early late h1 h2]
    simp

/-- Witness for `C10_placeholder_excluded` at one trial, `early = 1`,
`late = 2`. -/
theorem C10_placeholder_excluded_witness :
    ((1 : Int) ≤ 1 ∧ (1 : Int) < ((2 : Nat) : Int)) ∧
    ((pearsonRTensorRun 1 1 2 [fun _ => zerosMat 1]).take 1 = [zerosMat 1] ∧
    pySlice2 (pearsonRTensorRun 1 1 2 [fun _ => zerosMat 1]) 1
        (pearsonRTensorRun 1 1 2 [fun _ => zerosMat 1]).length =
      [fun _ : Int => zerosMat 1].map (fun f => f (1 - 1)) ∧
    pySlice2 (pearsonRTensorRun 1 1 2 [fun _ => zerosMat 1]) 2
        ((pearsonRTensorRun 1 1 2 [fun _ => zerosMat 1]).length + 1) =
      [fun _ : Int => zerosMat 1].map (fun f => f (((2 : Nat) : Int) - 1)) ∧
    (pearsonRTestRun 2 1 2 [fun _ => [0, 0]]).take 1 = [List.replicate 2 0] ∧
    pySlice2 (pearsonRTestRun 2 1 2 [fun _ => [0, 0]]) 1
        (pearsonRTestRun 2 1 2 [fun _ => [0, 0]]).length =
      [fun _ : Int => [(0 : ℝ), 0]].map (fun f => f (1 - 1)) ∧
    pySlice2 (pearsonRTestRun 2 1 2 [fun _ => [0, 0]]) 2
        ((pearsonRTestRun 2 1 2 [fun _ => [0, 0]]).length + 1) =
      [fun _ : Int => [(0 : ℝ), 0]].map (fun f => f (((2 : Nat) : Int) - 1))) := by
  refine ⟨⟨le_refl 1, by decide⟩, ?_⟩
  exact C10_placeholder_excluded 1 2 1 2 (le_refl 1) (by decide)
    [fun _ => zerosMat 1] [fun _ => [0, 0]]

/-- `torch.mean(stacked, 0)` over a list of n×n matrices: the
element-wise mean (lines 468-469). -/
noncomputable def matMean (n : Nat) (l : List (List (List ℝ))) : List (List ℝ) :=
  (List.range n).map fun i => (List.range n).map fun j =>
    (l.map fun M => matAt M i j).sum / (l.length : ℝ)

/-- `pearson_r_early[component] = torch.mean(acc[1:len(acc):2], 0)`
(lines 466 and 468). -/
noncomputable def pearsonREarlyAgg (n : Nat) (early : Int) (late : Nat)
    (Mtrials : List (Int → List (List ℝ))) : List (List ℝ) :=
  matMean n (pySlice2 (pearsonRTensorRun n early late Mtrials) 1
    (pearsonRTensorRun n early late Mtrials).length)

/-- `pearson_r_late[component] = torch.mean(acc[2:len(acc)+1:2], 0)`
(lines 467 and 469). -/
noncomputable def pearsonRLateAgg (n : Nat) (early : Int) (late : Nat)
    (Mtrials : List (Int → List (List ℝ))) : List (List ℝ) :=
  matMean n (pySlice2 (pearsonRTensorRun n early late Mtrials) 2
    ((pearsonRTensorRun n early late Mtrials).length + 1))

theorem getD_map_range {β : Type} (g : Nat → β) (n i : Nat) (d : β) (hi : i < n) :
    ((List.range n).map g).getD i d = g i := by
  rw [List.getD_eq_getElem _ _ (by simpa using hi), List.getElem_map, List.getElem_range]

theorem getD_map_range_ge {β : Type} (g : Nat → β) (n i : Nat) (d : β) (hi : n ≤ i) :
    ((List.range n).map g).getD i d = d := by
  rw [List.getD_eq_default]
  simpa using hi

theorem getD_replicate_of_lt {β : Type} (a : β) (n i : Nat) (d : β) (hi : i < n) :
    (List.replicate n a).getD i d = a := by
  rw [List.getD_eq_getElem _ _ (by simpa using hi), List.getElem_replicate]

theorem matAt_matMean (n : Nat) (l : List (List (List ℝ))) (i j : Nat) :
    matAt (matMean n l) i j =
      if i < n ∧ j < n then (l.map fun M => matAt M i j).sum / (l.length : ℝ) else 0 := by
  unfold matAt matMean
  by_cases hi : i < n
  · rw [getD_map_range _ n i [] hi]
    by_cases hj : j < n
    · rw [getD_map_range _ n j 0 hj]
      simp [hi, hj, matAt]
    · rw [getD_map_range_ge _ n j 0 (Nat.le_of_not_lt hj)]
      simp [hi, hj]
  · rw [getD_map_range_ge _ n i [] (Nat.le_of_not_lt hi)]
    simp [hi]

theorem matMean_symm (n : Nat) (l : List (List (List ℝ)))
    (hsym : ∀ M ∈ l, ∀ i j : Nat, matAt M i j = matAt M j i) :
    ∀ i j : Nat, matAt (matMean n l) i j = matAt (matMean n l) j i := by
  intro i j
  rw [matAt_matMean, matAt_matMean]
  by_cases hi : i < n
  · by_cases hj : j < n
    · simp only [hi, hj, and_self, if_true]
      have hmap : l.map (fun M => matAt M i j) = l.map (fun M => matAt M j i) :=
        List.map_congr_left fun M hM => hsym M hM i j
      rw [hmap]
    · simp [hi, hj]
  · simp [hi]

/-- C5: after all seeds and epochs complete, the aggregated early matrix
of each component equals the element-wise mean taken over exactly the
early-tagged entries of that component's matrix accumulator (the
per-trial early-probe matrices), and likewise late over exactly the
late-tagged entries, no entry contributing to both (the two index sets
are the disjoint odd/even stridings); whenever every accumulated entry
is symmetric the aggregated matrices are symmetric. -/
theorem C5_aggregated_means (n : Nat) (early : Int) (late : Nat)
    (h1 : 1 ≤ early) (h2 : early < (late : Int))
    (Mtrials : List (Int → List (List ℝ)))
    (hsym : ∀ f ∈ Mtrials, ∀ s : Int, ∀ i j : Nat, matAt (f s) i j = matAt (f s) j i) :
    pearsonREarlyAgg n early late Mtrials =
      matMean n (Mtrials.map fun f => f (early - 1)) ∧
    pearsonRLateAgg n early late Mtrials =
      matMean n (Mtrials.map fun f => f ((late : Int) - 1)) ∧
    (∀ i j : Nat, matAt (pearsonREarlyAgg n early late Mtrials) i j =
      matAt (pearsonREarlyAgg n early late Mtrials) j i) ∧
    (∀ i j : Nat, matAt (pearsonRLateAgg n early late Mtrials) i j =
      matAt (pearsonRLateAgg n early late Mtrials) j i) := by
  have hE : pearsonREarlyAgg n early late Mtrials =
      matMean n (Mtrials.map fun f => f (early - 1)) := by
    unfold pearsonREarlyAgg pearsonRTensorRun
    rw [accumRun_early_slice early late h1 h2]
  have hL : pearsonRLateAgg n early late Mtrials =
      matMean n (Mtrials.map fun f => f ((late : Int) - 1)) := by
    unfold pearsonRLateAgg pearsonRTensorRun
    rw [accumRun_late_slice early late h1 h2]
  refine ⟨hE, hL, ?_, ?_⟩
  · rw [hE]
    apply matMean_symm
    intro M hM i j
    obtain ⟨f, hf, rfl⟩ := List.mem_map.mp hM
    exact hsym f hf _ i j
  · rw [hL]
    apply matMean_symm
    intro M hM i j
    obtain ⟨f, hf, rfl⟩ := List.mem_map.mp hM
    exact hsym f hf _ i j

theorem matAt_zerosMat (n i j : Nat) : matAt (zerosMat n) i j = 0 := by
  unfold matAt zerosMat
  by_cases hi : i < n
  · rw [getD_replicate_of_lt _ n i [] hi]
    by_cases hj : j < n
    · rw [getD_replicate_of_lt _ n j 0 hj]
    · rw [List.getD_eq_default _ _ (by simpa using Nat.le_of_not_lt hj)]
  · have h0 : (List.replicate n (List.replicate n (0 : ℝ))).getD i [] = [] :=
      List.getD_eq_default _ _ (by simpa using Nat.le_of_not_lt hi)
    rw [h0]
    rfl

/-- Witness for `C5_aggregated_means`: one trial appending the (trivially
symmetric) zero matrix, `early = 1`, `late = 2`. -/
theorem C5_aggregated_means_witness :
    ((1 : Int) ≤ 1 ∧ (1 : Int) < ((2 : Nat) : Int) ∧
      (∀ f ∈ [fun _ : Int => zerosMat 1], ∀ s : Int, ∀ i j : Nat,
        matAt (f s) i j = matAt (f s) j i)) ∧
    (pearsonREarlyAgg 1 1 2 [fun _ => zerosMat 1] =
      matMean 1 ([fun _ : Int => zerosMat 1].map fun f => f (1 - 1)) ∧
    pearsonRLateAgg 1 1 2 [fun _ => zerosMat 1] =
      matMean 1 ([fun _ : Int => zerosMat 1].map fun f => f (((2 : Nat) : Int) - 1)) ∧
    (∀ i j : Nat, matAt (pearsonREarlyAgg 1 1 2 [fun _ => zerosMat 1]) i j =
      matAt (pearsonREarlyAgg 1 1 2 [fun _ => zerosMat 1]) j i) ∧
    (∀ i j : Nat, matAt (pearsonRLateAgg 1 1 2 [fun _ => zerosMat 1]) i j =
      matAt (pearsonRLateAgg 1 1 2 [fun _ => zerosMat 1]) j i)) := by
  have hsym : ∀ f ∈ [fun _ : Int => zerosMat 1], ∀ s : Int, ∀ i j : Nat,
      matAt (f s) i j = matAt (f s) j i := by
    intro f hf s i j
    have hf' : f = fun _ : Int => zerosMat 1 := by simpa using hf
    subst hf'
    rw [matAt_zerosMat, matAt_zerosMat]
  refine ⟨⟨le_refl 1, by decide, hsym⟩, ?_⟩
  exact C5_aggregated_means 1 1 2 (le_refl 1) (by decide) [fun _ => zerosMat 1] hsym

/-- The experiment variant selected by `config['experiment_name']`
(defaulting to pairs_structure, lines 62-65). -/
inductive Variant where
  | pairs_structure
  | associative_inference
  | community_structure
  deriving DecidableEq

/-- The structural partitions precomputed by the sequence generator
(`sequence_study.core_sequence`, `.test_sequence`, `.base_sequence`,
`.graph_sequences`); the generator lives outside this repository's
sources, so the partitions are opaque data here. -/
structure Partitions where
  core_sequence : List (Nat × Nat)
  test_sequence : List (Nat × Nat)
  base_sequence : List (Nat × Nat)
  graph_sequences : List (List (Nat × Nat))

/-- `sum([pearson_r[i, j] for (i, j) in cells]) / len(cells)`
(lines 359-371). -/
noncomputable def cellMean (M : List (List ℝ)) (cells : List (Nat × Nat)) : ℝ :=
  (cells.map fun c => matAt M c.1 c.2).sum / (cells.length : ℝ)

/-- `tmp_pearson_test` as built per variant on lines 358-372:
pairs: `[[pearson_core_pattern, pearson_all_pattern]]`;
associative inference: `[[transitive - base, direct - base]]`;
community: `[[within_internal, within_boundary, across_boundary,
across_other]]`. -/
noncomputable def tmpPearsonTest (v : Variant) (g : Partitions) (M : List (List ℝ)) : List ℝ :=
  match v with
  | .pairs_structure => [cellMean M g.core_sequence, cellMean M g.test_sequence]
  | .associative_inference =>
      [cellMean M g.test_sequence - cellMean M g.base_sequence,
       cellMean M g.core_sequence - cellMean M g.base_sequence]
  | .community_structure =>
      [cellMean M (g.graph_sequences.getD 0 []), cellMean M (g.graph_sequences.getD 1 []),
       cellMean M (g.graph_sequences.getD 2 []), cellMean M (g.graph_sequences.getD 3 [])]

/-- One probe's append to one component's contrast accumulator
(`pearson_r_test[component] = torch.cat((pearson_r_test[component],
tmp_pearson_test), 0)`, line 374). -/
noncomputable def probeContrastAppend (v : Variant) (g : Partitions) (M : List (List ℝ))
    (testAcc : List (List ℝ)) : List (List ℝ) :=
  testAcc ++ [tmpPearsonTest v g M]

/-- C3: for every probe and component, the contrast vector appended to
the contrast accumulator is exactly the variant's designated one — Pair:
(mean over core_sequence cells, mean over test_sequence cells); Triad:
(mean(test) − mean(base), mean(core) − mean(base)); Community: the four
graph-partition means in order — and the append changes nothing else:
the previous accumulator is an unchanged strict prefix. -/
theorem C3_contrast_vectors (g : Partitions) (M : List (List ℝ)) (acc : List (List ℝ)) :
    (probeContrastAppend .pairs_structure g M acc =
      acc ++ [[cellMean M g.core_sequence, cellMean M g.test_sequence]] ∧
    probeContrastAppend .associative_inference g M acc =
      acc ++ [[cellMean M g.test_sequence - cellMean M g.base_sequence,
               cellMean M g.core_sequence - cellMean M g.base_sequence]] ∧
    probeContrastAppend .community_structure g M acc =
      acc ++ [[cellMean M (g.graph_sequences.getD 0 []),
               cellMean M (g.graph_sequences.getD 1 []),
               cellMean M (g.graph_sequences.getD 2 []),
               cellMean M (g.graph_sequences.getD 3 [])]]) ∧
    (∀ v : Variant, (probeContrastAppend v g M acc).take acc.length = acc ∧
      (probeContrastAppend v g M acc).length = acc.length + 1) := by
  refine ⟨⟨rfl, rfl, rfl⟩, fun v => ⟨?_, ?_⟩⟩
  · unfold probeContrastAppend
    rw [List.take_append_of_le_length (le_refl _), List.take_length]
  · unfold probeContrastAppend
    simp

/-- Population mean of a flattened feature vector. -/
noncomputable def lmean (v : List ℝ) : ℝ := v.sum / (v.length : ℝ)

/-- The centered vector `v - mean(v)`. -/
noncomputable def centered (v : List ℝ) : List ℝ := v.map fun x => x - lmean v

/-- Sum of products of centered coordinates, the building block of
`scipy.stats.pearsonr`. -/
noncomputable def sxy (a b : List ℝ) : ℝ :=
  (List.zipWith (fun x y => x * y) (centered a) (centered b)).sum

/-- `scipy.stats.pearsonr(a, b)[0]`: the Pearson correlation
coefficient `Σ(a-ā)(b-b̄) / sqrt(Σ(a-ā)² · Σ(b-b̄)²)`. -/
noncomputable def pearsonr (a b : List ℝ) : ℝ :=
  sxy a b / Real.sqrt (sxy a a * sxy b b)

/-- `pearson_r = [[stats.pearsonr(a, b)[0] for a in rows] for b in rows]`
with `rows = recall_outputs_flat[0:characters]` (lines 352-355): the
comprehension variable `b` indexes rows, `a` indexes columns. -/
noncomputable def pearsonMatrix (characters : Nat) (rows : List (List ℝ)) : List (List ℝ) :=
  (rows.take characters).map fun b => (rows.take characters).map fun a => pearsonr a b

/-- A feature vector with at least two distinct coordinates. -/
def Nonconstant (v : List ℝ) : Prop := ∃ x ∈ v, ∃ y ∈ v, x ≠ y

theorem zipWith_mul_self (l : List ℝ) :
    List.zipWith (fun x y => x * y) l l = l.map fun x => x * x := by
  induction l with
  | nil => rfl
  | cons a t ih => simp [List.zipWith_cons_cons, ih]

theorem sxy_comm (a b : List ℝ) : sxy a b = sxy b a := by
  unfold sxy
  rw [List.zipWith_comm_of_comm _ mul_comm]

theorem sxy_self_nonneg (v : List ℝ) : 0 ≤ sxy v v := by
  unfold sxy
  rw [zipWith_mul_self]
  apply List.sum_nonneg
  intro x hx
  obtain ⟨c, _, rfl⟩ := List.mem_map.mp hx
  exact mul_self_nonneg c

theorem sum_eq_zero_of_nonneg (l : List ℝ) (h : ∀ x ∈ l, 0 ≤ x) (hs : l.sum = 0) :
    ∀ x ∈ l, x = 0 := by
  induction l with
  | nil => intro x hx; cases hx
  | cons a t ih =>
    have hts : 0 ≤ t.sum := List.sum_nonneg fun x hx => h x (List.mem_cons_of_mem a hx)
    have ha : 0 ≤ a := h a (List.mem_cons_self a t)
    have hsum : a + t.sum = 0 := by simpa using hs
    have ha0 : a = 0 := by linarith
    have ht0 : t.sum = 0 := by linarith
    intro x hx
    rcases List.mem_cons.mp hx with rfl | hx'
    · exact ha0
    · exact ih (fun y hy => h y (List.mem_cons_of_mem a hy)) ht0 x hx'

theorem sxy_self_ne_zero_of_nonconstant (v : List ℝ) (h : Nonconstant v) :
    sxy v v ≠ 0 := by
  intro heq
  obtain ⟨x, hx, y, hy, hxy⟩ := h
  have hsq : ((centered v).map fun c => c * c).sum = 0 := by
    have := heq
    unfold sxy at this
    rwa [zipWith_mul_self] at this
  have hall : ∀ z ∈ (centered v).map fun c => c * c, z = 0 :=
    sum_eq_zero_of_nonneg _
      (fun z hz => by
        obtain ⟨c, _, rfl⟩ := List.mem_map.mp hz
        exact mul_self_nonneg c) hsq
  have hconst : ∀ z ∈ v, z = lmean v := by
    intro z hz
    have hc : (z - lmean v) * (z - lmean v) = 0 := by
      apply hall
      exact List.mem_map.mpr ⟨z - lmean v, List.mem_map.mpr ⟨z, hz, rfl⟩, rfl⟩
    have := mul_self_eq_zero.mp hc
    linarith
  exact hxy ((hconst x hx).trans (hconst y hy).symm)

theorem pearsonr_comm (a b : List ℝ) : pearsonr a b = pearsonr b a := by
  unfold pearsonr
  rw [sxy_comm a b, mul_comm (sxy a a) (sxy b b)]

theorem pearsonr_self (v : List ℝ) (h : Nonconstant v) : pearsonr v v = 1 := by
  unfold pearsonr
  rw [Real.sqrt_mul_self (sxy_self_nonneg v)]
  exact div_self (sxy_self_ne_zero_of_nonconstant v h)

theorem getD_map_getD {β γ : Type} (g : β → γ) (l : List β) (i : Nat) (dβ : β) (dγ : γ)
    (hi : i < l.length) :
    (l.map g).getD i dγ = g (l.getD i dβ) := by
  rw [List.getD_eq_getElem _ _ (by simpa using hi), List.getElem_map,
    List.getD_eq_getElem _ _ hi]

theorem matAt_pearsonMatrix (characters : Nat) (rows : List (List ℝ))
    (hlen : characters ≤ rows.length) (i j : Nat) :
    matAt (pearsonMatrix characters rows) i j =
      if i < characters ∧ j < characters
      then pearsonr ((rows.take characters).getD j [])
        ((rows.take characters).getD i [])
      else 0 := by
  have hlen' : (rows.take characters).length = characters := by
    rw [List.length_take]
    omega
  unfold matAt
  by_cases hi : i < characters
  · have hi' : i < (rows.take characters).length := by rw [hlen']; exact hi
    have hrow : (pearsonMatrix characters rows).getD i [] =
        (rows.take characters).map fun a => pearsonr a ((rows.take characters).getD i []) := by
      unfold pearsonMatrix
      exact getD_map_getD _ _ i [] [] hi'
    rw [hrow]
    by_cases hj : j < characters
    · have hj' : j < (rows.take characters).length := by rw [hlen']; exact hj
      rw [getD_map_getD _ _ j [] 0 hj']
      simp [hi, hj]
    · have hd : ((rows.take characters).map fun a =>
          pearsonr a ((rows.take characters).getD i [])).length ≤ j := by
        rw [List.length_map, hlen']
        exact Nat.le_of_not_lt hj
      rw [List.getD_eq_default _ _ hd]
      simp [hi, hj]
  · have h0 : (pearsonMatrix characters rows).getD i [] = [] := by
      apply List.getD_eq_default
      unfold pearsonMatrix
      rw [List.length_map, hlen']
      exact Nat.le_of_not_lt hi
    rw [h0]
    simp [hi]

/-- C4: the correlation matrix of a probe is computed only over the
first `characters` rows of the flattened component output (appending
extra response rows beyond the item pool leaves it unchanged), it is
`characters × characters` whenever the batch has at least `characters`
rows, and — provided each restricted feature vector is non-constant —
it is symmetric with every diagonal entry exactly 1. -/
theorem C4_pearson_matrix (characters : Nat) (rows : List (List ℝ))
    (hlen : characters ≤ rows.length)
    (hnc : ∀ v ∈ rows.take characters, Nonconstant v) :
    (pearsonMatrix characters rows).length = characters ∧
    (∀ row ∈ pearsonMatrix characters rows, row.length = characters) ∧
    (∀ rest : List (List ℝ),
      pearsonMatrix characters (rows.take characters ++ rest) =
        pearsonMatrix characters rows) ∧
    (∀ i j : Nat, matAt (pearsonMatrix characters rows) i j =
      matAt (pearsonMatrix characters rows) j i) ∧
    (∀ i : Nat, i < characters → matAt (pearsonMatrix characters rows) i i = 1) := by
  have hlen' : (rows.take characters).length = characters := by
    rw [List.length_take]
    omega
  refine ⟨?_, ?_, ?_, ?_, ?_⟩
  · unfold pearsonMatrix
    rw [List.length_map, hlen']
  · intro row hrow
    unfold pearsonMatrix at hrow
    obtain ⟨b, _, rfl⟩ := List.mem_map.mp hrow
    rw [List.length_map, hlen']
  · intro rest
    unfold pearsonMatrix
    rw [List.take_append_of_le_length (by rw [hlen']), List.take_take, min_self]
  · intro i j
    rw [matAt_pearsonMatrix characters rows hlen i j,
      matAt_pearsonMatrix characters rows hlen j i]
    by_cases hi : i < characters
    · by_cases hj : j < characters
      · simp only [hi, hj, and_self, if_true]
        exact pearsonr_comm _ _
      · simp [hi, hj]
    · simp [hi]
  · intro i hi
    rw [matAt_pearsonMatrix characters rows hlen i i]
    simp only [hi, and_self, if_true]
    apply pearsonr_self
    apply hnc
    rw [List.getD_eq_getElem _ _ (by rw [hlen']; exact hi)]
    exact List.getElem_mem _

/-- Witness for `C4_pearson_matrix`: two non-constant feature rows,
`characters = 2`. -/
theorem C4_pearson_matrix_witness :
    (2 ≤ ([[(0 : ℝ), 1], [1, 0]] : List (List ℝ)).length ∧
      (∀ v ∈ ([[(0 : ℝ), 1], [1, 0]] : List (List ℝ)).take 2, Nonconstant v)) ∧
    ((pearsonMatrix 2 [[(0 : ℝ), 1], [1, 0]]).length = 2 ∧
    (∀ row ∈ pearsonMatrix 2 [[(0 : ℝ), 1], [1, 0]], row.length = 2) ∧
    (∀ rest : List (List ℝ),
      pearsonMatrix 2 (([[(0 : ℝ), 1], [1, 0]] : List (List ℝ)).take 2 ++ rest) =
        pearsonMatrix 2 [[(0 : ℝ), 1], [1, 0]]) ∧
    (∀ i j : Nat, matAt (pearsonMatrix 2 [[(0 : ℝ), 1], [1, 0]]) i j =
      matAt (pearsonMatrix 2 [[(0 : ℝ), 1], [1, 0]]) j i) ∧
    (∀ i : Nat, i < 2 → matAt (pearsonMatrix 2 [[(0 : ℝ), 1], [1, 0]]) i i = 1)) := by
  have hnc : ∀ v ∈ ([[(0 : ℝ), 1], [1, 0]] : List (List ℝ)).take 2, Nonconstant v := by
    intro v hv
    simp only [List.take_succ_cons, List.take_zero, List.mem_cons, List.not_mem_nil,
      or_false] at hv
    rcases hv with rfl | rfl
    · exact ⟨0, by simp, 1, by simp, by norm_num⟩
    · exact ⟨1, by simp, 0, by simp, by norm_num⟩
  refine ⟨⟨by simp, hnc⟩, ?_⟩
  exact C4_pearson_matrix 2 [[(0 : ℝ), 1], [1, 0]] (by simp) hnc

/-- Events of one trial, in execution order. -/
inductive Ev where
  | studyStep (step : Nat)
  | probe (step : Nat)
  | accumulate (step : Nat)
  | metricsAssertFail
  deriving DecidableEq

/-- `metrics_len = [len(value) for key, value in metrics_config.items()]`
followed by `all(x == metrics_len[0] for x in metrics_len)`
(lines 387-388). -/
def metricsLensOk (lens : List Nat) : Bool :=
  lens.all fun x => x == lens.headD 0

/-- The study loop of one trial as an event trace
(`for step in range(config['late_response_steps'])`, lines 301-378):
each step trains the model once; when the guard of line 318 fires the
probe runs and the matrix and contrast accumulators are extended. -/
def studyPhaseTrace (early : Int) (late : Nat) : List Ev :=
  (List.range late).flatMap fun step =>
    Ev.studyStep step ::
      (if probeCond early late step then [Ev.probe step, Ev.accumulate step] else [])

/-- One trial (lines 244-443): the whole study loop runs first; only
afterwards, in the recall block, does line 388 assert that the
per-key metrics-config lists have equal lengths (when metrics are
enabled). Returns the trace and whether the assertion fired. No
early-versus-late configuration check exists anywhere. -/
def trialTrace (early : Int) (late : Nat) (metricsEnabled : Bool) (lens : List Nat) :
    List Ev × Bool :=
  if metricsEnabled && !(metricsLensOk lens) then
    (studyPhaseTrace early late ++ [Ev.metricsAssertFail], true)
  else
    (studyPhaseTrace early late, false)

/-- C6 counterexample: with `early_response_step = 2` not strictly
before `late_response_steps = 2` and a well-formed metrics config, the
trial raises no error at all — probes and accumulations execute — so no
ConfigurationError is raised before any trial executes. -/
theorem C6_counterexample :
    ¬ ((2 : Int) < ((2 : Nat) : Int)) ∧
    (trialTrace 2 2 true [1, 1]).2 = false ∧
    Ev.probe 1 ∈ (trialTrace 2 2 true [1, 1]).1 ∧
    Ev.accumulate 1 ∈ (trialTrace 2 2 true [1, 1]).1 := by
  decide

/-- C6 (corrected): the code has no early-vs-late configuration check —
for every early/late configuration, consistent metrics lists raise
nothing; mismatched per-key metrics-config list lengths do fail, but via
the assertion inside the first trial's recall block, after that trial's
study steps, probes and accumulations have all executed — never before
the trial. -/
theorem C6_error_behaviour (early : Int) (late : Nat) (lens lens2 : List Nat)
    (h : metricsLensOk lens = false) (h2 : metricsLensOk lens2 = true) :
    (trialTrace early late true lens).1 =
      studyPhaseTrace early late ++ [Ev.metricsAssertFail] ∧
    (trialTrace early late true lens).2 = true ∧
    (trialTrace early late true lens2).1 = studyPhaseTrace early late ∧
    (trialTrace early late true lens2).2 = false := by
  unfold trialTrace
  rw [h, h2]
  simp

/-- Witness for `C6_error_behaviour`: `early = 2`, `late = 2`,
mismatched lists `[1, 2]`, well-formed lists `[1, 1]`. -/
theorem C6_error_behaviour_witness :
    (metricsLensOk [1, 2] = false ∧ metricsLensOk [1, 1] = true) ∧
    ((trialTrace 2 2 true [1, 2]).1 =
      studyPhaseTrace 2 2 ++ [Ev.metricsAssertFail] ∧
    (trialTrace 2 2 true [1, 2]).2 = true ∧
    (trialTrace 2 2 true [1, 1]).1 = studyPhaseTrace 2 2 ∧
    (trialTrace 2 2 true [1, 1]).2 = false) := by
  refine ⟨⟨by decide, by decide⟩, ?_⟩
  exact C6_error_behaviour 2 2 [1, 2] [1, 1] (by decide) (by decide)

/-- The named recall outputs the accumulation loop reads
(`recall_outputs["stm"]["memory"][...]`, lines 327-347), abstract in the
flattened feature payload. -/
structure RecallOutputs (V : Type) where
  dg : V
  pr_out : V
  ca3_cue : V
  ca3_ca1_decoding : V
  ca1_decoding : V
  recon_decoding : V

/-- One iteration of the `for component in components` chain of plain
`if` statements (lines 327-347): a recognized name rebinds
`recall_outputs_flat`; an unrecognized name leaves the variable bound
to whatever the previous iteration set (`none` models the variable
still being unbound, a NameError on first use). -/
def selectFlat {V : Type} (out : RecallOutputs V) (prev : Option V) (c : String) : Option V :=
  let r := prev
  let r := if c = "dg" then some out.dg else r
  let r := if c = "pr" then some out.pr_out else r
  let r := if c = "ec_ca3" then some out.ca3_cue else r
  let r := if c = "ca3_ca1" then some out.ca3_ca1_decoding else r
  let r := if c = "ca1" then some out.ca1_decoding else r
  let r := if c = "recon_pair" then some out.recon_decoding else r
  r

/-- For one probe, the feature vector each tracked component's
statistics (lines 352-374) are computed from, in loop order. -/
def componentVectors {V : Type} (out : RecallOutputs V) (components : List String) :
    List (String × Option V) :=
  (components.foldl
    (fun st c => (selectFlat out st.1 c, st.2 ++ [(c, selectFlat out st.1 c)]))
    ((none : Option V), ([] : List (String × Option V)))).2

/-- C7 (code bug): a component name absent from the recognized feature
keys does NOT fail with a ConfigurationError. Listed after a recognized
component (here `components = ["dg", "xyz"]`), the chain of `if`
statements leaves `recall_outputs_flat` bound to the previous
component's features, so the unknown component's accumulator entries are
silently computed from `dg`'s data; listed first, the variable is still
unbound (a NameError, not a ConfigurationError). Recognized names do
select their own features. -/
theorem C7_stale_component_features {V : Type} (out : RecallOutputs V) :
    componentVectors out ["dg", "xyz"] = [("dg", some out.dg), ("xyz", some out.dg)] ∧
    componentVectors out ["xyz"] = [("xyz", none)] ∧
    componentVectors out ["dg", "pr"] = [("dg", some out.dg), ("pr", some out.pr_out)] := by
  refine ⟨rfl, rfl, rfl⟩

/-- Construction/use events for one generator role inside one seed's
body (lines 199-218). -/
inductive GenEv where
  | construct (id : Nat)
  | epochUse (epoch : Nat) (id : Nat)
  deriving DecidableEq

/-- One seed's generator lifecycle, one role traced
(`sequence_study`): constructed once on lines 200/203/206, before the
epoch loop; each epoch `stm_epoch in range(config['train_epochs'])`
then reads `sequence_study.sequence` (line 215) and its partitions
(lines 359-371) from that same instance. Ids identify instances. -/
def seedGenTrace (trainEpochs : Nat) : List GenEv :=
  GenEv.construct 0 :: ((List.range trainEpochs).map fun ep => GenEv.epochUse ep 0)

def isConstruct : GenEv → Bool
  | GenEv.construct _ => true
  | _ => false

def usedId : GenEv → Option Nat
  | GenEv.epochUse _ i => some i
  | _ => none

/-- C9 counterexample: with `E = 2` training epochs the seed body
performs exactly one generator construction, not one per epoch
(`E = 2`), and both epochs read the same instance. -/
theorem C9_counterexample :
    ((seedGenTrace 2).filter isConstruct).length = 1 ∧ (1 : Nat) ≠ 2 ∧
    (seedGenTrace 2).filterMap usedId = [0, 0] := by
  decide

/-- C9 (corrected): for every number `E` of training epochs, the
sequence generator is constructed exactly once per seed, before the
epoch loop (the trace starts with the construction), and all `E` epochs
reuse that same instance — so for `E ≥ 2` one generator instance IS
reused across distinct epochs. -/
theorem C9_generator_lifecycle (E : Nat) :
    ((seedGenTrace E).filter isConstruct).length = 1 ∧
    (seedGenTrace E).filterMap usedId = List.replicate E 0 ∧
    (seedGenTrace E).take 1 = [GenEv.construct 0] := by
  refine ⟨?_, ?_, rfl⟩
  · unfold seedGenTrace
    rw [List.filter_cons]
    simp only [isConstruct, if_true]
    rw [List.filter_map]
    have hcomp : (isConstruct ∘ fun ep => GenEv.epochUse ep 0) = fun _ => false := by
      funext ep
      rfl
    rw [hcomp]
    simp
  · unfold seedGenTrace
    rw [List.filterMap_cons]
    simp only [usedId]
    rw [List.filterMap_map]
    have hcomp : (usedId ∘ fun ep => GenEv.epochUse ep 0) = some ∘ fun _ => (0 : Nat) := by
      funext ep
      rfl
    rw [hcomp, List.filterMap_eq_map]
    have hconst : (List.range E).map (fun _ => (0 : Nat)) =
        (List.range E).map (Function.const Nat 0) := rfl
    rw [hconst, List.map_const]
    simp

/-- `torch.nn.CosineSimilarity(dim=0, eps=1e-6)` (line 322):
`x·y / max(‖x‖₂·‖y‖₂, eps)`. -/
noncomputable def cosSim (eps : ℝ) (a b : List ℝ) : ℝ :=
  (List.zipWith (fun x y => x * y) a b).sum /
    max (Real.sqrt ((a.map fun x => x * x).sum) *
      Real.sqrt ((b.map fun x => x * x).sum)) eps

/-- Python `t.index(max(t))` (line 349): the index of the first
occurrence of the maximum (Python `max` of a nonempty list is a left
fold of binary max). -/
noncomputable def indexMax : List ℝ → Nat
  | [] => 0
  | x :: xs => (x :: xs).findIdx fun y => decide (y = xs.foldl max x)

theorem foldl_max_le_seed {α : Type} [LinearOrder α] (l : List α) :
    ∀ a : α, a ≤ l.foldl max a := by
  induction l with
  | nil => intro a; exact le_refl a
  | cons b t ih =>
    intro a
    rw [List.foldl_cons]
    exact le_trans (le_max_left a b) (ih (max a b))

theorem le_foldl_max_of_mem {α : Type} [LinearOrder α] {x : α} :
    ∀ (l : List α) (a : α), x ∈ l → x ≤ l.foldl max a := by
  intro l
  induction l with
  | nil => intro a hx; cases hx
  | cons b t ih =>
    intro a hx
    rw [List.foldl_cons]
    rcases List.mem_cons.mp hx with rfl | hx'
    · exact le_trans (le_max_right a x) (foldl_max_le_seed t (max a x))
    · exact ih (max a b) hx'

theorem foldl_max_mem {α : Type} [LinearOrder α] :
    ∀ (l : List α) (a : α), l.foldl max a ∈ a :: l := by
  intro l
  induction l with
  | nil => intro a; exact List.mem_cons_self a []
  | cons b t ih =>
    intro a
    rw [List.foldl_cons]
    rcases List.mem_cons.mp (ih (max a b)) with h' | h'
    · rcases max_choice a b with hm | hm
      · rw [h', hm]
        exact List.mem_cons_self a (b :: t)
      · rw [h', hm]
        exact List.mem_cons_of_mem a (List.mem_cons_self b t)
    · exact List.mem_cons_of_mem a (List.mem_cons_of_mem b h')

/-- `t.index(max(t))` on a nonempty list is the first-occurring index of
the maximum: it is in range, no entry exceeds it, and every strictly
earlier entry is strictly smaller. -/
theorem indexMax_spec (t : List ℝ) (h : t ≠ []) :
    indexMax t < t.length ∧
    (∀ j, j < t.length → t.getD j 0 ≤ t.getD (indexMax t) 0) ∧
    (∀ j, j < indexMax t → t.getD j 0 < t.getD (indexMax t) 0) := by
  match t with
  | [] => exact absurd rfl h
  | x :: xs =>
    set m := xs.foldl max x with hm
    set p : ℝ → Bool := fun y => decide (y = m) with hp
    have hmem : m ∈ x :: xs := foldl_max_mem xs x
    have hub : ∀ y ∈ x :: xs, y ≤ m := by
      intro y hy
      rcases List.mem_cons.mp hy with rfl | hy'
      · exact foldl_max_le_seed xs y
      · exact le_foldl_max_of_mem xs x hy'
    have hex : ∃ y ∈ x :: xs, p y = true := ⟨m, hmem, by simp [hp]⟩
    have hlt : (x :: xs).findIdx p < (x :: xs).length :=
      List.findIdx_lt_length_of_exists hex
    have hidx : indexMax (x :: xs) = (x :: xs).findIdx p := rfl
    have hval : (x :: xs).getD ((x :: xs).findIdx p) 0 = m := by
      rw [List.getD_eq_getElem _ _ hlt]
      have h2 := @List.findIdx_getElem _ p (x :: xs) hlt
      simpa [hp] using h2
    refine ⟨hidx ▸ hlt, ?_, ?_⟩
    · intro j hj
      rw [hidx, hval, List.getD_eq_getElem _ _ hj]
      exact hub _ (List.getElem_mem hj)
    · intro j hj
      rw [hidx] at hj
      have hjlen : j < (x :: xs).length := lt_trans hj hlt
      rw [hidx, hval, List.getD_eq_getElem _ _ hjlen]
      have hne : p ((x :: xs).get ⟨j, hjlen⟩) = false := by
        simpa using List.not_of_lt_findIdx hj
      have hne2 : (x :: xs).get ⟨j, hjlen⟩ ≠ m := by simpa [hp] using hne
      exact lt_of_le_of_ne (hub _ (List.getElem_mem hjlen)) hne2

/-- Lines 344-350 for the designated reconstruction component
(`recon_pair`):
`similarity = [[cos(a, b) for b in main_pairs_flat] for a in recall_outputs_flat]`,
`similarity_idx = [t.index(max(t)) for t in similarity]`,
`predictions.extend([[labels_study[a] for a in similarity_idx]])` —
`main_pairs_flat` are the reference patterns of the core item pairs and
`labels_study` is the generator's `core_label_sequence`. -/
noncomputable def classifyProbe {L : Type} (eps : ℝ) (recalled refs : List (List ℝ))
    (labels : List L) (dflt : L) : List L :=
  ((recalled.map fun a => refs.map fun b => cosSim eps a b).map fun t => indexMax t).map
    fun i => labels.getD i dflt

/-- C8: for every probe of the reconstruction component, each recalled
pattern is scored by cosine similarity against the full set of core
item-pair reference patterns, the chosen index maximises the similarity
with ties broken by the first-occurring maximum, and the recorded
prediction is the core-sequence label at that index. -/
theorem C8_cosine_classification {L : Type} (eps : ℝ) (recalled refs : List (List ℝ))
    (labels : List L) (dflt : L) (href : refs ≠ []) (hlab : labels.length = refs.length) :
    (classifyProbe eps recalled refs labels dflt).length = recalled.length ∧
    ∀ k, k < recalled.length →
      ∃ i, i < refs.length ∧ i < labels.length ∧
        (∀ j, j < refs.length →
          cosSim eps (recalled.getD k []) (refs.getD j []) ≤
            cosSim eps (recalled.getD k []) (refs.getD i [])) ∧
        (∀ j, j < i →
          cosSim eps (recalled.getD k []) (refs.getD j []) <
            cosSim eps (recalled.getD k []) (refs.getD i [])) ∧
        (classifyProbe eps recalled refs labels dflt).getD k dflt = labels.getD i dflt := by
  constructor
  · unfold classifyProbe
    simp
  · intro k hk
    set a := recalled.getD k [] with ha
    set t := refs.map fun b => cosSim eps a b with ht
    have htne : t ≠ [] := by
      rw [ht]
      simpa using href
    have htlen : t.length = refs.length := by
      rw [ht]
      simp
    obtain ⟨hilt, hub, hstrict⟩ := indexMax_spec t htne
    have hgetj : ∀ j, j < refs.length → t.getD j 0 = cosSim eps a (refs.getD j []) := by
      intro j hj
      rw [ht]
      exact getD_map_getD _ _ j [] 0 hj
    refine ⟨indexMax t, by omega, by omega, ?_, ?_, ?_⟩
    · intro j hj
      rw [← hgetj j hj, ← hgetj (indexMax t) (by omega)]
      exact hub j (by omega)
    · intro j hj
      rw [← hgetj j (by omega), ← hgetj (indexMax t) (by omega)]
      exact hstrict j hj
    · unfold classifyProbe
      have hk1 : k < (recalled.map fun a => refs.map fun b => cosSim eps a b).length := by
        simpa using hk
      have hk2 : k <
          ((recalled.map fun a => refs.map fun b => cosSim eps a b).map
            fun t => indexMax t).length := by
        simpa using hk
      rw [getD_map_getD (fun i => labels.getD i dflt) _ k 0 dflt hk2,
        getD_map_getD (fun t => indexMax t) _ k [] 0 hk1,
        getD_map_getD (fun a => refs.map fun b => cosSim eps a b) _ k [] [] hk]

/-- Witness for `C8_cosine_classification`: one recalled pattern `[1]`,
two reference patterns `[1]` and `[0]`, labels `[0, 1]`,
`eps = 1e-6`. -/
theorem C8_cosine_classification_witness :
    (([[(1 : ℝ)], [0]] : List (List ℝ)) ≠ [] ∧
      ([0, 1] : List Nat).length = ([[(1 : ℝ)], [0]] : List (List ℝ)).length) ∧
    ((classifyProbe (1 / 1000000) [[(1 : ℝ)]] [[(1 : ℝ)], [0]] [0, 1] 0).length =
      ([[(1 : ℝ)]] : List (List ℝ)).length ∧
    ∀ k, k < ([[(1 : ℝ)]] : List (List ℝ)).length →
      ∃ i, i < ([[(1 : ℝ)], [0]] : List (List ℝ)).length ∧
        i < ([0, 1] : List Nat).length ∧
        (∀ j, j < ([[(1 : ℝ)], [0]] : List (List ℝ)).length →
          cosSim (1 / 1000000) (([[(1 : ℝ)]] : List (List ℝ)).getD k [])
              (([[(1 : ℝ)], [0]] : List (List ℝ)).getD j []) ≤
            cosSim (1 / 1000000) (([[(1 : ℝ)]] : List (List ℝ)).getD k [])
              (([[(1 : ℝ)], [0]] : List (List ℝ)).getD i [])) ∧
        (∀ j, j < i →
          cosSim (1 / 1000000) (([[(1 : ℝ)]] : List (List ℝ)).getD k [])
              (([[(1 : ℝ)], [0]] : List (List ℝ)).getD j []) <
            cosSim (1 / 1000000) (([[(1 : ℝ)]] : List (List ℝ)).getD k [])
              (([[(1 : ℝ)], [0]] : List (List ℝ)).getD i [])) ∧
        (classifyProbe (1 / 1000000) [[(1 : ℝ)]] [[(1 : ℝ)], [0]] [0, 1] 0).getD k 0 =
          ([0, 1] : List Nat).getD i 0) := by
  refine ⟨⟨by simp, rfl⟩, ?_⟩
  exact C8_cosine_classification (1 / 1000000) [[(1 : ℝ)]] [[(1 : ℝ)], [0]] [0, 1] 0
    (by simp) rfl

end Schapiro
